import Mathlib

/- Verification development for the VoxNavigator 3D point-cloud visualizer.

   Shallow embedding of the data ingestion pipeline (FileUpload.processCSV),
   the application-level category/style registry (App.handleDataLoaded),
   the per-category render batches and picking loop (DataVisualizer:
   CategoryPoints, handleHover, pointsByCategory), the marker-texture
   rasterizer (createShapeTexture with its per-component memoization), the
   capture flow (takeScreenshot / handleCapture) and the overlay rendering
   conditions. Machine numbers are modelled by exact rationals; JS records
   are modelled by insertion-ordered association lists with the ECMAScript
   own-property-key enumeration order. -/

/-- Marker shapes, from types.ts (`PointShape`). -/
inductive PointShape where
  | circle
  | square
  | diamond
  | cross
deriving DecidableEq, Repr

/-- A data point, from types.ts (`DataPoint`). Coordinates are modelled as
exact rationals. -/
structure DataPoint where
  x : ℚ
  y : ℚ
  z : ℚ
  label : String
  metadata : String
  color : String
deriving DecidableEq, Repr

/-- Per-category style, from types.ts (`CategoryStyle`). -/
structure CategoryStyle where
  color : String
  shape : PointShape
  visible : Bool
deriving DecidableEq, Repr

/-- First-match lookup in an insertion-ordered association list; models
reading a property of a JS record (`obj[key]`), `none` standing for
`undefined`. -/
def lookupStr {β : Type} : List (String × β) → String → Option β
  | [], _ => none
  | e :: rest, k => if e.1 = k then some e.2 else lookupStr rest k

/-- Pointwise update of every binding of a key in a JS-record model (a
record holds one binding per key, so under distinct keys this is the single
in-place update `rec[key] = v`, preserving insertion position). -/
def jsUpdate {β : Type} : List (String × β) → String → β → List (String × β)
  | [], _, _ => []
  | e :: rest, k, v =>
    if e.1 = k then (k, v) :: jsUpdate rest k v else e :: jsUpdate rest k v

/-- Value of a decimal digit string read left to right (the usual JS
digit-accumulation semantics). -/
def digitsToNat (ds : List Char) : Nat :=
  ds.foldl (fun a c => a * 10 + (c.toNat - 48)) 0

/-- Exponent part of a JS float literal: an optional sign followed by digits;
missing digits contribute exponent 0 (parseFloat stops before an incomplete
exponent, e.g. `parseFloat "1e"` is 1). -/
def readExp (cs : List Char) : ℤ :=
  match cs with
  | '-' :: rest => -(digitsToNat (rest.takeWhile Char.isDigit) : ℤ)
  | '+' :: rest => (digitsToNat (rest.takeWhile Char.isDigit) : ℤ)
  | _ => (digitsToNat (cs.takeWhile Char.isDigit) : ℤ)

/-- Model of JS `parseFloat`: skip leading whitespace, optional sign, decimal
digits with an optional fraction and exponent; `none` models `NaN` (no digit
consumed). Values are exact rationals rather than IEEE doubles, and the
special literal `Infinity` is not representable; neither difference is
exercised by the claims. -/
def jsParseFloat (s : String) : Option ℚ :=
  let cs := s.toList.dropWhile Char.isWhitespace
  let sgnAndRest : ℚ × List Char :=
    match cs with
    | '-' :: rest => (-1, rest)
    | '+' :: rest => (1, rest)
    | _ => (1, cs)
  let intSpan := sgnAndRest.2.span Char.isDigit
  let fracSpan :=
    match intSpan.2 with
    | '.' :: rest => rest.span Char.isDigit
    | _ => ([], intSpan.2)
  if intSpan.1.isEmpty && fracSpan.1.isEmpty then none
  else
    let mant : ℚ :=
      (digitsToNat intSpan.1 : ℚ) + (digitsToNat fracSpan.1 : ℚ) / ((10 : ℚ) ^ fracSpan.1.length)
    let e : ℤ :=
      match fracSpan.2 with
      | 'e' :: rest => readExp rest
      | 'E' :: rest => readExp rest
      | _ => 0
    some (sgnAndRest.1 * mant * (10 : ℚ) ^ e)

/-- Numeric column access: `parseFloat(cols[i]) || 0`. An absent column is
`undefined`, whose parse is `NaN`; `NaN || 0` and a failed parse both yield
0 (finite falsy numbers are only ±0, which `|| 0` maps to 0 as well). -/
def numAt (cols : List String) (i : Nat) : ℚ :=
  match cols.get? i with
  | none => 0
  | some s => (jsParseFloat s).getD 0

/-- String column with default: `cols[i] || dflt` (absent or empty string
falls back to the default; any non-empty string is truthy). -/
def strOr (o : Option String) (dflt : String) : String :=
  match o with
  | none => dflt
  | some s => if s = "" then dflt else s

/-- The fixed 10-color default palette, written identically in
FileUpload.processCSV and App.handleDataLoaded. -/
def colorPalette : List String :=
  ["#60a5fa", "#f87171", "#34d399", "#fbbf24", "#a78bfa",
   "#f472b6", "#2dd4bf", "#fb923c", "#818cf8", "#94a3b8"]

/-- The color drawn for the i-th newly seen category:
`colorPalette[i % colorPalette.length]`. -/
def paletteColor (i : Nat) : String :=
  (colorPalette.get? (i % colorPalette.length)).getD ""

/-- The non-blank lines of the raw text:
`text.split('\n').filter(line => line.trim().length > 0)`. -/
def nonBlankLines (text : String) : List String :=
  (text.splitOn "\n").filter (fun l => decide (0 < l.trim.length))

/-- The own property keys of `Object.prototype`: reading one of these on a
plain object literal that has no own entry for it yields the inherited
member (a function, or for `__proto__` the prototype object itself) — a
truthy, non-string value — instead of `undefined`. -/
def protoKeys : List String :=
  ["constructor", "hasOwnProperty", "isPrototypeOf", "propertyIsEnumerable",
   "toLocaleString", "toString", "valueOf", "__proto__",
   "__defineGetter__", "__defineSetter__", "__lookupGetter__", "__lookupSetter__"]

/-- Whether reading this key on a fresh `{}` record hits an inherited
`Object.prototype` member rather than `undefined`. -/
def isProtoKey (s : String) : Bool :=
  decide (s ∈ protoKeys)

/-- The runtime value the parser stores in a point's `color` field: an own
string entry of the `categoryColors` record, or — when the label collides
with an `Object.prototype` property name, so the truthy inherited member
defeats the `!categoryColors[label]` guard — that inherited member itself. -/
inductive JsColorValue where
  | str (s : String)
  | protoMember (name : String)
deriving DecidableEq, Repr

/-- A point as FileUpload.processCSV actually produces it at runtime: the
TypeScript annotation declares `color: string`, but the value read back from
the record can be an inherited `Object.prototype` member, so the color
channel is modelled by `JsColorValue`. -/
structure RawPoint where
  x : ℚ
  y : ℚ
  z : ℚ
  label : String
  metadata : String
  color : JsColorValue
deriving DecidableEq, Repr

/-- Body of FileUpload.processCSV's `lines.map(...)` with the mutable
`categoryColors` record and `colorIndex` counter made explicit: each line is
split on commas, fields trimmed, columns 1-3 parsed numerically, column 4
labelled with default "Unlabeled", column 5 defaulted to the empty string.
The guard `if (!categoryColors[label])` sees the own entry when one exists
(assigning a fresh palette color only if that entry were the falsy empty
string), the truthy inherited `Object.prototype` member when the label is
one of its property names (so no palette color is assigned and the point
stores that member), and `undefined` otherwise (assigning the next cycling
palette color). -/
def processLines : List String → List (String × String) → Nat → List RawPoint
  | [], _, _ => []
  | line :: rest, categoryColors, colorIndex =>
    let cols := (line.splitOn ",").map String.trim
    let x := numAt cols 0
    let y := numAt cols 1
    let z := numAt cols 2
    let label := strOr (cols.get? 3) "Unlabeled"
    let metadata := (cols.get? 4).getD ""
    match lookupStr categoryColors label with
    | some c =>
      if c = "" then
        ⟨x, y, z, label, metadata, JsColorValue.str (paletteColor colorIndex)⟩ ::
          processLines rest (jsUpdate categoryColors label (paletteColor colorIndex))
            (colorIndex + 1)
      else
        ⟨x, y, z, label, metadata, JsColorValue.str c⟩ ::
          processLines rest categoryColors colorIndex
    | none =>
      if isProtoKey label then
        ⟨x, y, z, label, metadata, JsColorValue.protoMember label⟩ ::
          processLines rest categoryColors colorIndex
      else
        ⟨x, y, z, label, metadata, JsColorValue.str (paletteColor colorIndex)⟩ ::
          processLines rest (categoryColors ++ [(label, paletteColor colorIndex)])
            (colorIndex + 1)

/-- FileUpload.processCSV: one RawPoint per non-blank line, in line order. -/
def processCSV (text : String) : List RawPoint :=
  processLines (nonBlankLines text) [] 0

/-- One step of JS `Set` insertion (insertion-ordered, first occurrence
kept). -/
def addDistinct (acc : List String) (l : String) : List String :=
  if l ∈ acc then acc else acc ++ [l]

/-- App.handleDataLoaded's `Array.from(new Set(points.map(p => p.label)))`:
the distinct labels in first-seen order. -/
def dedupFirstSeen (ls : List String) : List String :=
  ls.foldl addDistinct []

/-- Association list assigning to the k-th listed key (at offset i) the value
`f (i+k)`; models a `forEach((key, index) => rec[key] = f(index))` loop. -/
def enumAssign {β : Type} (f : Nat → β) : Nat → List String → List (String × β)
  | _, [] => []
  | i, cat :: rest => (cat, f i) :: enumAssign f (i + 1) rest

/-- App.handleDataLoaded's default style registry: the i-th category (in
first-seen order) gets the i-th cycling palette color, shape circle,
visible. -/
def defaultStyles (categories : List String) : List (String × CategoryStyle) :=
  enumAssign (fun i => ⟨paletteColor i, PointShape.circle, true⟩) 0 categories

/-- App.handleDataLoaded: the categories list and the default style registry
computed from the loaded points. -/
def handleDataLoaded (points : List DataPoint) :
    List String × List (String × CategoryStyle) :=
  let categories := dedupFirstSeen (points.map DataPoint.label)
  (categories, defaultStyles categories)

/-- Position of the first occurrence of a string in a list (length when
absent). -/
def posOf : List String → String → Nat
  | [], _ => 0
  | x :: xs, a => if x = a then 0 else posOf xs a + 1

/-- Specification-side description of first-occurrence order: each distinct
element once, a head first, followed by the first-occurrence order of the
remainder with that head erased. Used to check App's `Set`-based
enumeration against the spec sentence "category enumeration order equals
the order of first occurrence of each distinct label". -/
def firstOccur : List String → List String
  | [] => []
  | x :: xs => x :: firstOccur (xs.filter (fun y => decide (y ≠ x)))
termination_by ls => ls.length
decreasing_by
  simp only [List.length_cons]
  exact Nat.lt_succ_of_le (List.length_filter_le _ _)

/-- Specification-side per-line fields from the ingestion contract: columns
1-3 numeric with parse failure defaulting to 0, column 4 the category label
defaulting to "Unlabeled" when absent or empty, column 5 free-text metadata
defaulting to the empty string when absent. -/
def specLineFields (line : String) : ℚ × ℚ × ℚ × String × String :=
  let cols := (line.splitOn ",").map String.trim
  (numAt cols 0, numAt cols 1, numAt cols 2,
   strOr (cols.get? 3) "Unlabeled", (cols.get? 4).getD "")

/-- The coordinate, label and metadata fields of a parsed point, forgetting
the assigned display color. -/
def stripColor (p : RawPoint) : ℚ × ℚ × ℚ × String × String :=
  (p.x, p.y, p.z, p.label, p.metadata)

/-- The keys of a JS-record model, in insertion order. -/
def keysOf {β : Type} (r : List (String × β)) : List String :=
  r.map Prod.fst

/-- The grouping step in the case where the label does not collide with an
inherited `Object.prototype` member: the guard sees an own key (append to
its group) or `undefined` (initialize a fresh group). Proof-side reference
for the non-colliding runs of `addPoint`. -/
def addPointOwn (groups : List (String × List DataPoint)) (p : DataPoint) :
    List (String × List DataPoint) :=
  match lookupStr groups p.label with
  | none => groups ++ [(p.label, [p])]
  | some ps => jsUpdate groups p.label (ps ++ [p])

/-- One step of DataVisualizer.pointsByCategory's forEach body:
`if (!groups[p.label]) groups[p.label] = []; groups[p.label].push(p)`. With
an own entry the point is appended to its group; with no own entry and a
label that is an `Object.prototype` property name the truthy inherited
member defeats the guard, no array is initialized, and `.push` on that
member throws a TypeError; otherwise a fresh group is initialized. -/
def addPoint (groups : List (String × List DataPoint)) (p : DataPoint) :
    Except String (List (String × List DataPoint)) :=
  match lookupStr groups p.label with
  | some ps => Except.ok (jsUpdate groups p.label (ps ++ [p]))
  | none =>
    if isProtoKey p.label then
      Except.error "TypeError: groups[p.label].push is not a function"
    else Except.ok (groups ++ [(p.label, [p])])

/-- Run the grouping forEach over the points, stopping at the first thrown
TypeError. -/
def groupPoints : List DataPoint → List (String × List DataPoint) →
    Except String (List (String × List DataPoint))
  | [], acc => Except.ok acc
  | p :: ps, acc =>
    match addPoint acc p with
    | Except.ok acc' => groupPoints ps acc'
    | Except.error e => Except.error e

/-- DataVisualizer.pointsByCategory: group the points by label into a JS
record, appending each point to its label's group in input order; throws
when a label collides with an inherited `Object.prototype` member. -/
def pointsByCategory (points : List DataPoint) :
    Except String (List (String × List DataPoint)) :=
  groupPoints points []

/-- ECMAScript array-index test for a property key: a canonical decimal
numeral (no leading zero except "0") whose value is below 2^32 - 1. Such
keys are enumerated before all other string keys. -/
def isArrayIndexKey (s : String) : Option Nat :=
  if s.length > 0 && s.toList.all Char.isDigit && (s = "0" || s.front ≠ '0') then
    let n := digitsToNat s.toList
    if n < 2 ^ 32 - 1 then some n else none
  else none

/-- Insertion sort step on entries tagged with their numeric key value. -/
def insertByNat {β : Type} (e : Nat × String × β) :
    List (Nat × String × β) → List (Nat × String × β)
  | [] => [e]
  | f :: rest => if e.1 ≤ f.1 then e :: f :: rest else f :: insertByNat e rest

/-- Insertion sort of tagged entries by ascending numeric key value. -/
def sortByNat {β : Type} : List (Nat × String × β) → List (Nat × String × β)
  | [] => []
  | e :: rest => insertByNat e (sortByNat rest)

/-- ECMAScript own-property enumeration order (`Object.entries`):
array-index-like keys first in ascending numeric order, then the remaining
string keys in insertion order. -/
def jsEntries {β : Type} (r : List (String × β)) : List (String × β) :=
  let idx := r.filterMap (fun e =>
    match isArrayIndexKey e.1 with
    | some n => some (n, e.1, e.2)
    | none => none)
  (sortByNat idx).map (fun e => (e.2.1, e.2.2)) ++
    r.filter (fun e => (isArrayIndexKey e.1).isNone)

/-- A picking ray: origin and (not necessarily normalized) direction, as set
from the pointer and camera by `raycaster.setFromCamera`. -/
structure Ray where
  ox : ℚ
  oy : ℚ
  oz : ℚ
  dx : ℚ
  dy : ℚ
  dz : ℚ
deriving DecidableEq, Repr

/-- Dot product of the origin-to-point vector with itself. -/
def rayWW (r : Ray) (p : DataPoint) : ℚ :=
  (p.x - r.ox) ^ 2 + (p.y - r.oy) ^ 2 + (p.z - r.oz) ^ 2

/-- Dot product of the origin-to-point vector with the ray direction. -/
def rayWD (r : Ray) (p : DataPoint) : ℚ :=
  (p.x - r.ox) * r.dx + (p.y - r.oy) * r.dy + (p.z - r.oz) * r.dz

/-- Squared length of the ray direction. -/
def rayDD (r : Ray) : ℚ :=
  r.dx ^ 2 + r.dy ^ 2 + r.dz ^ 2

/-- Three.js Points raycast hit test (threshold 1, identity world matrix):
for a point ahead of the origin, squared ray-to-point distance below the
squared threshold (written scale-invariantly as ww*dd - wd^2 < dd); for a
point behind the origin, squared origin distance below the squared
threshold. -/
def rayHits (r : Ray) (p : DataPoint) : Bool :=
  if 0 ≤ rayWD r p then
    decide (rayWW r p * rayDD r - rayWD r p ^ 2 < rayDD r)
  else
    decide (rayWW r p < 1)

/-- Sort key of a hit: three.js ranks intersections by distance from the ray
origin to the closest ray point, which for a fixed ray is ordered like the
direction-projection wd clamped at 0. -/
def rayKey (r : Ray) (p : DataPoint) : ℚ :=
  max 0 (rayWD r p)

/-- `raycaster.intersectObject(meshRef.current)` for one category's Points
mesh followed by `intersects[0].index`: the index of the hit closest to the
ray origin (first such index on ties, matching a stable ascending sort). -/
def batchPick (ray : Ray) (pts : List DataPoint) : Option Nat :=
  match pts.enum.filter (fun e => rayHits ray e.2) with
  | [] => none
  | h :: t =>
    some (t.foldl (fun best e => if rayKey ray e.2 < rayKey ray best.2 then e else best) h).1

/-- A category batch as CategoryPoints receives it: the category's points
and its style. -/
abbrev Batch := List DataPoint × CategoryStyle

/-- The batches whose `<points>` mesh is rendered: CategoryPoints returns
null when `!style.visible`. -/
def renderBatches (bs : List Batch) : List Batch :=
  bs.filter (fun b => b.2.visible)

/-- One category's per-frame useFrame body, as the `onHover` call it makes:
`none` when invisible (early return, no call), otherwise `some` of the call
payload — the batch-closest hit point, or null on a miss. -/
def categoryFrameCall (pts : List DataPoint) (st : CategoryStyle) (ray : Ray) :
    Option (Option DataPoint) :=
  if st.visible then
    some (match batchPick ray pts with
          | some i => pts.get? i
          | none => none)
  else none

/-- The ordered sequence of `onHover` calls one rendered frame makes: each
visible batch contributes exactly one call, invisible batches contribute
none. -/
def frameCalls (bs : List Batch) (ray : Ray) : List (Option DataPoint) :=
  bs.filterMap (fun b => categoryFrameCall b.1 b.2 ray)

/-- Hover state of DataVisualizer: the hovered point and the pending
hover-clear timer deadline (ms), when armed. -/
structure HoverState where
  hovered : Option DataPoint
  timer : Option Nat
deriving DecidableEq, Repr

/-- DataVisualizer.handleHover at time `now`: any pending clear timer is
cancelled first; a hit sets the hovered point immediately; a miss arms a
50 ms clear timer and leaves the hovered point unchanged. -/
def handleHover (now : Nat) (s : HoverState) (p : Option DataPoint) : HoverState :=
  match p with
  | some pt => ⟨some pt, none⟩
  | none => ⟨s.hovered, some (now + 50)⟩

/-- Expire the clear timer if its deadline has passed: the timeout callback
`setHoveredPoint(null)` runs and the handle is spent. -/
def fireIfDue (now : Nat) (s : HoverState) : HoverState :=
  match s.timer with
  | some d => if d ≤ now then ⟨none, none⟩ else s
  | none => s

/-- Expire any still-pending clear timer after the last event (quiescence at
the end of a finite trace). -/
def fireFinal (s : HoverState) : HoverState :=
  match s.timer with
  | some _ => ⟨none, none⟩
  | none => s

/-- Run a timed sequence of `handleHover` calls (time in ms, payload the
`onHover` argument), recording every intermediate state: before each call
any due timer fires, and after the last event a still-pending timer fires. -/
def runHover (s : HoverState) : List (Nat × Option DataPoint) → List HoverState
  | [] => [fireFinal s]
  | (t, p) :: rest =>
    let s1 := fireIfDue t s
    let s2 := handleHover t s1 p
    s1 :: s2 :: runHover s2 rest

/-- The full state trace of a timed hover-call sequence, starting state
included. -/
def hoverTrace (s : HoverState) (evts : List (Nat × Option DataPoint)) : List HoverState :=
  s :: runHover s evts

/-- Number of transitions of the hovered point from non-null to null along a
state trace. -/
def nullTransitions : List HoverState → Nat
  | a :: b :: rest =>
    (if a.hovered ≠ none ∧ b.hovered = none then 1 else 0) + nullTransitions (b :: rest)
  | _ => 0

/-- Hover state after one rendered frame at time `t`: the frame's `onHover`
calls applied in batch order. -/
def frameHover (s : HoverState) (t : Nat) (bs : List Batch) (ray : Ray) : HoverState :=
  (frameCalls bs ray).foldl (handleHover t) s

/-- The non-null payload of the latest `onHover` call a frame makes: the
batch-closest point of the last visible batch whose pick test yields a
point, later batches taking precedence over earlier ones. -/
def lastHitBatch : List Batch → Ray → Option DataPoint
  | [], _ => none
  | b :: bs, ray =>
    match lastHitBatch bs ray with
    | some p => some p
    | none =>
      if b.2.visible then
        match batchPick ray b.1 with
        | some i => b.1.get? i
        | none => none
      else none

/-- Specification-side picker: among all points of all visible batches that
the ray hits, the globally closest one (earliest on ties). -/
def globalClosestHit (bs : List Batch) (ray : Ray) : Option DataPoint :=
  match ((renderBatches bs).flatMap Prod.fst).filter (rayHits ray) with
  | [] => none
  | h :: t => some (t.foldl (fun best p => if rayKey ray p < rayKey ray best then p else best) h)

/-- A rasterized marker texture: `new THREE.CanvasTexture(canvas)` — a fresh
bitmap object (identified by its creation sequence number) holding the
silhouette of one shape. -/
structure Texture where
  texId : Nat
  shape : PointShape
deriving DecidableEq, Repr

/-- Pixel coverage of createShapeTexture's 64x64 canvas at pixel (px, py),
sampling geometric coverage at pixel centers (coordinates doubled to stay
integral): a radius-28 disc at (32,32), a fillRect(8,8,48,48) square, the
diamond with vertices (32,8),(56,32),(32,56),(8,32), or the union of
fillRect(24,8,16,48) and fillRect(8,24,48,16). -/
def shapePixel (shape : PointShape) (px py : Nat) : Bool :=
  let cx : ℤ := 2 * (px : ℤ) + 1 - 64
  let cy : ℤ := 2 * (py : ℤ) + 1 - 64
  match shape with
  | PointShape.circle => decide (cx ^ 2 + cy ^ 2 ≤ 3136)
  | PointShape.square => decide (8 ≤ px ∧ px ≤ 55 ∧ 8 ≤ py ∧ py ≤ 55)
  | PointShape.diamond => decide (cx.natAbs + cy.natAbs ≤ 48)
  | PointShape.cross =>
    decide ((24 ≤ px ∧ px ≤ 39 ∧ 8 ≤ py ∧ py ≤ 55) ∨
            (8 ≤ px ∧ px ≤ 55 ∧ 24 ≤ py ∧ py ≤ 39))

/-- The pixel content of a texture: rasterization depends only on the
shape. -/
def texPixels (t : Texture) : Nat → Nat → Bool :=
  shapePixel t.shape

/-- Global rasterization bookkeeping: the next fresh bitmap id and how many
bitmaps have been rasterized so far. -/
structure RasterState where
  nextId : Nat
  rasterCount : Nat
deriving DecidableEq, Repr

/-- A CategoryPoints component's `useMemo(() => createShapeTexture(style.shape),
[style.shape])` cell: at most the most recent dependency and its cached
texture. -/
structure MemoCell where
  cache : Option (PointShape × Texture)
deriving DecidableEq, Repr

/-- One texture request through the memo cell: if the cached dependency
equals the requested shape the cached texture is returned, otherwise
createShapeTexture rasterizes a fresh bitmap and the cell is overwritten. -/
def requestTexture (st : RasterState) (cell : MemoCell) (shape : PointShape) :
    Texture × RasterState × MemoCell :=
  match cell.cache with
  | some (s, t) =>
    if s = shape then (t, st, cell)
    else
      let t' : Texture := ⟨st.nextId, shape⟩
      (t', ⟨st.nextId + 1, st.rasterCount + 1⟩, ⟨some (shape, t')⟩)
  | none =>
    let t' : Texture := ⟨st.nextId, shape⟩
    (t', ⟨st.nextId + 1, st.rasterCount + 1⟩, ⟨some (shape, t')⟩)

/-- Run a sequence of texture requests through one memo cell, starting from
a fresh cell and zeroed bookkeeping; returns the textures handed out and the
final bookkeeping. -/
def runRequests (shapes : List PointShape) : List Texture × RasterState :=
  let step := shapes.foldl
    (fun acc shape =>
      let r := requestTexture acc.2.1 acc.2.2 shape
      (acc.1 ++ [r.1], r.2.1, r.2.2))
    (([] : List Texture), (⟨0, 0⟩ : RasterState), (⟨none⟩ : MemoCell))
  (step.1, step.2.1)

/-- Number of distinct shapes in a request sequence. -/
def distinctShapeCount (shapes : List PointShape) : Nat :=
  (shapes.foldl (fun acc s => if s ∈ acc then acc else acc ++ [s]) []).length

/-- Outcome of the capture effect body (SceneCapture's `onCapture(gl)`): the
image is saved, or an exception escapes the effect. -/
inductive CaptureOutcome where
  | saved (filename : String) (href : String)
  | uncaughtException (msg : String)
deriving DecidableEq, Repr

/-- JS `String.prototype.replace` with a string pattern: replace the first
occurrence only. -/
def jsReplaceFirst (s pat repl : String) : String :=
  match s.splitOn pat with
  | [] => s
  | [_] => s
  | a :: b :: rest => a ++ repl ++ String.intercalate pat (b :: rest)

/-- DataVisualizer.handleCapture, with `gl.domElement.toDataURL('image/png')`
modelled by its result: `some url` on success, `none` when frame read-back
or encoding fails (toDataURL throws). The body runs without any try/catch,
so a failure escapes as an uncaught exception; on success a download link
named from the timestamp is clicked. -/
def handleCapture (encodeResult : Option String) (timestamp : Nat) : CaptureOutcome :=
  match encodeResult with
  | some url =>
    CaptureOutcome.saved ("VoxNavigator-3D-" ++ toString timestamp ++ ".png")
      (jsReplaceFirst url "image/png" "image/octet-stream")
  | none => CaptureOutcome.uncaughtException "toDataURL threw"

/-- DataVisualizer.takeScreenshot as seen by its caller together with the
capture effect it triggers: the handle operation returns no value (unit) and
only raises the trigger flag; the effect's outcome happens inside the render
loop. -/
def captureFlow (encodeResult : Option String) (timestamp : Nat) :
    Unit × CaptureOutcome :=
  ((), handleCapture encodeResult timestamp)

/-- The transient overlays of DataVisualizer's render output. -/
inductive Overlay where
  | tooltip (p : DataPoint)
  | selectionPanel (p : DataPoint)
deriving DecidableEq, Repr

/-- The overlays present in DataVisualizer's render output, from the JSX
conditions `hoveredPoint && !selectedPoint && !screenshotTrigger && <Html>`
and `selectedPoint && !screenshotTrigger && <div>`. -/
def overlays (hoveredPoint selectedPoint : Option DataPoint)
    (screenshotTrigger : Bool) : List Overlay :=
  (match hoveredPoint with
   | some hp =>
     if selectedPoint = none && !screenshotTrigger then [Overlay.tooltip hp] else []
   | none => []) ++
  (match selectedPoint with
   | some sp => if !screenshotTrigger then [Overlay.selectionPanel sp] else []
   | none => [])

/-- Whether an overlay is the hover tooltip. -/
def isTooltip : Overlay → Bool
  | Overlay.tooltip _ => true
  | Overlay.selectionPanel _ => false

/-- The category label a raw CSV line yields (column 4, default
"Unlabeled"). -/
def lineLabel (line : String) : String :=
  strOr (((line.splitOn ",").map String.trim).get? 3) "Unlabeled"

/-- The `categoryColors` record processCSV has built after assigning colors
to a list of distinct labels in order. -/
def mkColors (cats : List String) : List (String × String) :=
  enumAssign paletteColor 0 cats

/-- Lookup distributes over record concatenation, earlier entries taking
precedence. -/
theorem lookup_append {β : Type} (a b : List (String × β)) (l : String) :
    lookupStr (a ++ b) l =
      match lookupStr a l with
      | some v => some v
      | none => lookupStr b l := by
  induction a with
  | nil => simp [lookupStr]
  | cons e rest ih =>
    by_cases h : e.1 = l
    · simp [lookupStr, h]
    · simp [lookupStr, h, ih]

/-- A lookup misses exactly when the key is absent. -/
theorem lookup_none_iff {β : Type} (r : List (String × β)) (l : String) :
    lookupStr r l = none ↔ l ∉ keysOf r := by
  induction r with
  | nil => simp [lookupStr, keysOf]
  | cons e rest ih =>
    by_cases h : e.1 = l
    · simp [lookupStr, h, keysOf]
    · simp [lookupStr, h, keysOf, ih]
      intro hne
      exact fun hx => (h hx.symm).elim

/-- Lookup after a pointwise update. -/
theorem jsUpdate_lookup {β : Type} (r : List (String × β)) (k : String) (v : β)
    (l : String) :
    lookupStr (jsUpdate r k v) l =
      if l = k then (if (lookupStr r k).isSome then some v else none)
      else lookupStr r l := by
  induction r with
  | nil => simp [jsUpdate, lookupStr]
  | cons e rest ih =>
    by_cases hek : e.1 = k
    · by_cases hlk : l = k
      · simp [jsUpdate, hek, lookupStr, hlk]
      · have hkl : ¬ k = l := fun h => hlk h.symm
        have hel : ¬ e.1 = l := fun h => hkl (hek ▸ h)
        simp [jsUpdate, hek, lookupStr, hlk, hkl, hel, ih]
    · by_cases hel : e.1 = l
      · have hlk : ¬ l = k := fun h => hek (hel.trans h)
        simp [jsUpdate, hek, lookupStr, hel, hlk]
      · simp [jsUpdate, hek, lookupStr, hel, ih]

/-- A pointwise update leaves the key sequence unchanged. -/
theorem keysOf_jsUpdate {β : Type} (r : List (String × β)) (k : String) (v : β) :
    keysOf (jsUpdate r k v) = keysOf r := by
  induction r with
  | nil => rfl
  | cons e rest ih =>
    simp only [keysOf] at ih ⊢
    by_cases hek : e.1 = k
    · simp [jsUpdate, hek, ih]
    · simp [jsUpdate, hek, ih]

/-- Lookup after one non-colliding grouping step. -/
theorem addPointOwn_lookup (acc : List (String × List DataPoint)) (p : DataPoint)
    (l : String) :
    lookupStr (addPointOwn acc p) l =
      if l = p.label then some ((lookupStr acc p.label).getD [] ++ [p])
      else lookupStr acc l := by
  unfold addPointOwn
  cases hl : lookupStr acc p.label with
  | none =>
    rw [lookup_append]
    by_cases h : l = p.label
    · subst h
      simp [hl, lookupStr]
    · have h' : ¬ p.label = l := fun hx => h hx.symm
      simp [h, h', lookupStr]
      cases lookupStr acc l <;> simp
  | some ps =>
    rw [jsUpdate_lookup]
    by_cases h : l = p.label
    · simp [h, hl]
    · simp [h]

/-- One non-colliding grouping step extends the key sequence like one `Set`
insertion of its label. -/
theorem addPointOwn_keys (acc : List (String × List DataPoint)) (p : DataPoint) :
    keysOf (addPointOwn acc p) = addDistinct (keysOf acc) p.label := by
  unfold addPointOwn addDistinct
  cases hl : lookupStr acc p.label with
  | none =>
    have hni : p.label ∉ keysOf acc := (lookup_none_iff acc p.label).mp hl
    simp only [keysOf] at hni ⊢
    simp [hni, keysOf]
  | some ps =>
    have hne : ¬ lookupStr acc p.label = none := by simp [hl]
    have hmem : p.label ∈ keysOf acc := by
      by_contra hx
      exact hne ((lookup_none_iff acc p.label).mpr hx)
    have hk := keysOf_jsUpdate acc p.label (ps ++ [p])
    simp only [keysOf] at hmem hk ⊢
    simp [hmem, hk]

/-- Lookup in the grouping record built by folding points over an
accumulator. -/
theorem foldl_addPointOwn_lookup (points : List DataPoint)
    (acc : List (String × List DataPoint)) (l : String) :
    lookupStr (points.foldl addPointOwn acc) l =
      match lookupStr acc l with
      | some g => some (g ++ points.filter (fun p => decide (p.label = l)))
      | none =>
        if l ∈ points.map DataPoint.label then
          some (points.filter (fun p => decide (p.label = l)))
        else none := by
  induction points generalizing acc with
  | nil =>
    cases h : lookupStr acc l <;> simp [h]
  | cons p ps ih =>
    rw [List.foldl_cons, ih (addPointOwn acc p), addPointOwn_lookup]
    by_cases h : l = p.label
    · subst h
      cases hl : lookupStr acc p.label with
      | none => simp [hl, List.filter_cons]
      | some g => simp [hl, List.filter_cons]
    · have h' : ¬ p.label = l := fun hx => h hx.symm
      cases hl : lookupStr acc l with
      | none => simp [h, h', hl, List.filter_cons]
      | some g => simp [h, h', hl, List.filter_cons]

/-- The grouping record's key sequence is the `Set`-style fold of the point
labels. -/
theorem foldl_addPointOwn_keys (points : List DataPoint)
    (acc : List (String × List DataPoint)) :
    keysOf (points.foldl addPointOwn acc) =
      (points.map DataPoint.label).foldl addDistinct (keysOf acc) := by
  induction points generalizing acc with
  | nil => rfl
  | cons p ps ih =>
    rw [List.foldl_cons, ih (addPointOwn acc p), addPointOwn_keys, List.map_cons,
      List.foldl_cons]

/-- A successful lookup means the key is present. -/
theorem lookup_some_mem {β : Type} (r : List (String × β)) (l : String) (v : β)
    (h : lookupStr r l = some v) : l ∈ keysOf r := by
  by_contra hx
  rw [(lookup_none_iff r l).mpr hx] at h
  cases h

/-- When no point label collides with an inherited `Object.prototype`
member, the grouping forEach never throws and agrees with its pure
non-colliding reference fold. -/
theorem groupPoints_no_proto (points : List DataPoint)
    (acc : List (String × List DataPoint))
    (h : ∀ p ∈ points, isProtoKey p.label = false) :
    groupPoints points acc = Except.ok (points.foldl addPointOwn acc) := by
  induction points generalizing acc with
  | nil => rfl
  | cons p ps ih =>
    have hp : isProtoKey p.label = false := h p (List.mem_cons_self _ _)
    have hstep : addPoint acc p = Except.ok (addPointOwn acc p) := by
      unfold addPoint addPointOwn
      cases hl : lookupStr acc p.label with
      | some g => rfl
      | none => simp [hp]
    rw [groupPoints, hstep, List.foldl_cons]
    exact ih (addPointOwn acc p) (fun q hq => h q (List.mem_cons_of_mem _ hq))

/-- A point whose label collides with an inherited `Object.prototype`
member makes the grouping forEach throw, provided no colliding label has
somehow acquired an own entry (as holds starting from the empty record). -/
theorem groupPoints_proto_crash (points : List DataPoint)
    (acc : List (String × List DataPoint))
    (hacc : ∀ k ∈ keysOf acc, isProtoKey k = false)
    (hex : ∃ p ∈ points, isProtoKey p.label = true) :
    (groupPoints points acc).toOption = none := by
  induction points generalizing acc with
  | nil =>
    rcases hex with ⟨p, hp, _⟩
    cases hp
  | cons p ps ih =>
    by_cases hp : isProtoKey p.label = true
    · have hl : lookupStr acc p.label = none := by
        cases hl : lookupStr acc p.label with
        | none => rfl
        | some g =>
          have := hacc p.label (lookup_some_mem acc p.label g hl)
          rw [hp] at this
          cases this
      have hstep : addPoint acc p =
          Except.error "TypeError: groups[p.label].push is not a function" := by
        unfold addPoint
        simp [hl, hp]
      rw [groupPoints, hstep]
      rfl
    · have hp' : isProtoKey p.label = false := by
        cases hb : isProtoKey p.label with
        | false => rfl
        | true => exact absurd hb hp
      have hex' : ∃ q ∈ ps, isProtoKey q.label = true := by
        rcases hex with ⟨q, hq, hqp⟩
        rcases List.mem_cons.mp hq with rfl | hq'
        · exact absurd hqp hp
        · exact ⟨q, hq', hqp⟩
      have hstep : addPoint acc p = Except.ok (addPointOwn acc p) := by
        unfold addPoint addPointOwn
        cases hl : lookupStr acc p.label with
        | some g => rfl
        | none => simp [hp']
      have hacc' : ∀ k ∈ keysOf (addPointOwn acc p), isProtoKey k = false := by
        intro k hk
        rw [addPointOwn_keys] at hk
        unfold addDistinct at hk
        by_cases hm : p.label ∈ keysOf acc
        · rw [if_pos hm] at hk
          exact hacc k hk
        · rw [if_neg hm] at hk
          rcases List.mem_append.mp hk with hk' | hk'
          · exact hacc k hk'
          · rcases List.mem_singleton.mp hk' with rfl
            exact hp'
      rw [groupPoints, hstep]
      exact ih (addPointOwn acc p) hacc' hex'

/-- A `Set`-style fold only ever appends at the end of the accumulator. -/
theorem foldl_addDistinct_extends (ls : List String) (acc : List String) :
    ∃ t, ls.foldl addDistinct acc = acc ++ t := by
  induction ls generalizing acc with
  | nil => exact ⟨[], by simp⟩
  | cons x xs ih =>
    rw [List.foldl_cons]
    by_cases h : x ∈ acc
    · rw [show addDistinct acc x = acc from if_pos h]
      exact ih acc
    · rw [show addDistinct acc x = acc ++ [x] from if_neg h]
      rcases ih (acc ++ [x]) with ⟨t, ht⟩
      exact ⟨[x] ++ t, by simp [ht]⟩

/-- Membership in a `Set`-style fold. -/
theorem mem_foldl_addDistinct (ls : List String) (acc : List String) (a : String) :
    a ∈ ls.foldl addDistinct acc ↔ a ∈ acc ∨ a ∈ ls := by
  induction ls generalizing acc with
  | nil => simp
  | cons x xs ih =>
    rw [List.foldl_cons]
    by_cases h : x ∈ acc
    · rw [show addDistinct acc x = acc from if_pos h, ih]
      simp only [List.mem_cons]
      constructor
      · rintro (ha | ha)
        · exact Or.inl ha
        · exact Or.inr (Or.inr ha)
      · rintro (ha | ha | ha)
        · exact Or.inl ha
        · exact Or.inl (ha ▸ h)
        · exact Or.inr ha
    · rw [show addDistinct acc x = acc ++ [x] from if_neg h, ih]
      simp [or_assoc]

/-- A `Set`-style fold preserves distinctness of the accumulator. -/
theorem nodup_foldl_addDistinct (ls : List String) (acc : List String)
    (h : acc.Nodup) : (ls.foldl addDistinct acc).Nodup := by
  induction ls generalizing acc with
  | nil => exact h
  | cons x xs ih =>
    rw [List.foldl_cons]
    by_cases hx : x ∈ acc
    · rw [show addDistinct acc x = acc from if_pos hx]
      exact ih acc h
    · rw [show addDistinct acc x = acc ++ [x] from if_neg hx]
      refine ih (acc ++ [x]) ?_
      simp [List.nodup_append, h, hx]

/-- The first-occurrence position of a present element is unchanged by
appending. -/
theorem posOf_append_of_mem (l : List String) (t : List String) (a : String)
    (h : a ∈ l) : posOf (l ++ t) a = posOf l a := by
  induction l with
  | nil => cases h
  | cons x xs ih =>
    by_cases hx : x = a
    · simp [posOf, hx]
    · rcases List.mem_cons.mp h with h1 | h1
      · exact absurd h1.symm hx
      · simp [posOf, hx, ih h1]

/-- Appending a fresh element puts it at position `length`. -/
theorem posOf_append_self (l : List String) (a : String) (h : a ∉ l) :
    posOf (l ++ [a]) a = l.length := by
  induction l with
  | nil => simp [posOf]
  | cons x xs ih =>
    have hx : ¬ x = a := fun hxa => h (hxa ▸ List.mem_cons_self x xs)
    have hxs : a ∉ xs := fun hm => h (List.mem_cons_of_mem x hm)
    simp [posOf, hx, ih hxs]

/-- In a duplicate-free list the element fetched at a position has that
position as its first occurrence. -/
theorem posOf_get? (l : List String) (k : Nat) (a : String) (hn : l.Nodup)
    (h : l.get? k = some a) : posOf l a = k := by
  induction l generalizing k with
  | nil => cases h
  | cons x xs ih =>
    cases k with
    | zero =>
      simp only [List.get?] at h
      injection h with h
      simp [posOf, h]
    | succ k' =>
      simp only [List.get?] at h
      have hmem : a ∈ xs := List.get?_mem h
      have hx : ¬ x = a := by
        intro hxa
        exact (List.nodup_cons.mp hn).1 (hxa ▸ hmem)
      simp [posOf, hx, ih k' (List.nodup_cons.mp hn).2 h]

/-- Lookup in an index-assigned registry fetches the assignment of the key's
first-occurrence position membership. -/
theorem lookup_enumAssign {β : Type} (f : Nat → β) (cats : List String)
    (i : Nat) (l : String) (hn : cats.Nodup) (h : l ∈ cats) :
    lookupStr (enumAssign f i cats) l = some (f (i + posOf cats l)) := by
  induction cats generalizing i with
  | nil => cases h
  | cons c cs ih =>
    by_cases hc : c = l
    · simp [enumAssign, lookupStr, hc, posOf]
    · rcases List.mem_cons.mp h with h1 | h1
      · exact absurd h1.symm hc
      · have : lookupStr (enumAssign f (i + 1) cs) l =
            some (f (i + 1 + posOf cs l)) := ih (i + 1) (List.nodup_cons.mp hn).2 h1
        simp only [enumAssign, lookupStr, hc, if_neg hc, this, posOf]
        have : i + 1 + posOf cs l = i + (posOf cs l + 1) := by omega
        simp [this]

/-- Index-assignment over an extended key list. -/
theorem enumAssign_append {β : Type} (f : Nat → β) (cats : List String)
    (i : Nat) (a : String) :
    enumAssign f i (cats ++ [a]) =
      enumAssign f i cats ++ [(a, f (i + cats.length))] := by
  induction cats generalizing i with
  | nil => simp [enumAssign]
  | cons c cs ih =>
    simp only [List.cons_append, enumAssign, List.length_cons, List.append_eq]
    rw [ih (i + 1), show i + 1 + cs.length = i + (cs.length + 1) from by omega]

/-- App's `Set`-based enumeration lists each distinct label once, in order
of first occurrence. -/
theorem dedupFirstSeen_eq_firstOccur_aux (ls : List String) (acc : List String) :
    ls.foldl addDistinct acc =
      acc ++ firstOccur (ls.filter (fun a => decide (a ∉ acc))) := by
  induction ls generalizing acc with
  | nil => simp [firstOccur]
  | cons x xs ih =>
    rw [List.foldl_cons, List.filter_cons]
    by_cases h : x ∈ acc
    · rw [show addDistinct acc x = acc from if_pos h,
        if_neg (by simp [h] : ¬ (decide (x ∉ acc)) = true)]
      exact ih acc
    · rw [show addDistinct acc x = acc ++ [x] from if_neg h,
        if_pos (by simp [h] : (decide (x ∉ acc)) = true), ih (acc ++ [x])]
      have hfo : firstOccur (x :: xs.filter (fun a => decide (a ∉ acc))) =
          x :: firstOccur ((xs.filter (fun a => decide (a ∉ acc))).filter
            (fun y => decide (y ≠ x))) := by
        simp [firstOccur]
      rw [hfo]
      have hfilter :
          (xs.filter (fun a => decide (a ∉ acc))).filter (fun y => decide (y ≠ x)) =
            xs.filter (fun a => decide (a ∉ acc ++ [x])) := by
        rw [List.filter_filter]
        refine List.filter_congr ?_
        intro a _
        by_cases hax : a = x
        · simp [hax, h]
        · by_cases hacc : a ∈ acc <;> simp [hax, hacc]
      rw [hfilter]
      simp

/-- Lookup in an index-assigned registry misses for absent keys. -/
theorem lookup_enumAssign_not_mem {β : Type} (f : Nat → β) (cats : List String)
    (i : Nat) (l : String) (h : l ∉ cats) :
    lookupStr (enumAssign f i cats) l = none := by
  induction cats generalizing i with
  | nil => rfl
  | cons c cs ih =>
    have hc : ¬ c = l := fun hx => h (hx ▸ List.mem_cons_self c cs)
    have hcs : l ∉ cs := fun hm => h (List.mem_cons_of_mem c hm)
    simp [enumAssign, lookupStr, hc, ih (i + 1) hcs]

/-- Any cycling palette color is a non-empty string. -/
theorem paletteColor_ne_empty (i : Nat) : paletteColor i ≠ "" := by
  have hb : ∀ j, j < colorPalette.length → (colorPalette.get? j).getD "" ≠ "" := by
    decide
  exact hb (i % colorPalette.length) (Nat.mod_lt _ (by decide))

/-- One unfolding of the processCSV line loop. -/
theorem processLines_cons (line : String) (rest : List String)
    (colors : List (String × String)) (idx : Nat) :
    processLines (line :: rest) colors idx =
      (let cols := (line.splitOn ",").map String.trim
      let lab := strOr (cols.get? 3) "Unlabeled"
      match lookupStr colors lab with
      | some c =>
        if c = "" then
          (⟨numAt cols 0, numAt cols 1, numAt cols 2, lab, (cols.get? 4).getD "",
            JsColorValue.str (paletteColor idx)⟩ : RawPoint) ::
            processLines rest (jsUpdate colors lab (paletteColor idx)) (idx + 1)
        else
          (⟨numAt cols 0, numAt cols 1, numAt cols 2, lab, (cols.get? 4).getD "",
            JsColorValue.str c⟩ : RawPoint) :: processLines rest colors idx
      | none =>
        if isProtoKey lab then
          (⟨numAt cols 0, numAt cols 1, numAt cols 2, lab, (cols.get? 4).getD "",
            JsColorValue.protoMember lab⟩ : RawPoint) ::
            processLines rest colors idx
        else
          (⟨numAt cols 0, numAt cols 1, numAt cols 2, lab, (cols.get? 4).getD "",
            JsColorValue.str (paletteColor idx)⟩ : RawPoint) ::
            processLines rest (colors ++ [(lab, paletteColor idx)]) (idx + 1)) := rfl

/-- The coordinate, label and metadata fields the line loop produces do not
depend on the color bookkeeping and agree with the ingestion contract's
per-line description. -/
theorem processLines_map_stripColor (lines : List String)
    (colors : List (String × String)) (idx : Nat) :
    (processLines lines colors idx).map stripColor = lines.map specLineFields := by
  induction lines generalizing colors idx with
  | nil => rfl
  | cons line rest ih =>
    rw [processLines_cons]
    cases hl : lookupStr colors (strOr (((line.splitOn ",").map String.trim).get? 3)
        "Unlabeled") with
    | some c =>
      by_cases hc : c = ""
      · simp only [hl]
        rw [if_pos hc, List.map_cons, ih]
        rfl
      · simp only [hl]
        rw [if_neg hc, List.map_cons, ih]
        rfl
    | none =>
      by_cases hpk : isProtoKey (strOr (((line.splitOn ",").map String.trim).get? 3)
          "Unlabeled") = true
      · simp only [hl]
        rw [if_pos hpk, List.map_cons, ih]
        rfl
      · simp only [hl]
        rw [if_neg hpk, List.map_cons, ih]
        rfl

/-- The labels the line loop produces, in order. -/
theorem processLines_map_label (lines : List String)
    (colors : List (String × String)) (idx : Nat) :
    (processLines lines colors idx).map RawPoint.label = lines.map lineLabel := by
  induction lines generalizing colors idx with
  | nil => rfl
  | cons line rest ih =>
    rw [processLines_cons]
    cases hl : lookupStr colors (strOr (((line.splitOn ",").map String.trim).get? 3)
        "Unlabeled") with
    | some c =>
      by_cases hc : c = ""
      · simp only [hl]
        rw [if_pos hc, List.map_cons, ih]
        rfl
      · simp only [hl]
        rw [if_neg hc, List.map_cons, ih]
        rfl
    | none =>
      by_cases hpk : isProtoKey (strOr (((line.splitOn ",").map String.trim).get? 3)
          "Unlabeled") = true
      · simp only [hl]
        rw [if_pos hpk, List.map_cons, ih]
        rfl
      · simp only [hl]
        rw [if_neg hpk, List.map_cons, ih]
        rfl

/-- Color invariant of the line loop when no line label collides with an
inherited `Object.prototype` member: starting from the registry for a
duplicate-free list of already-seen labels, every produced point is colored
by the cycling palette at its label's first-occurrence position in the final
distinct-label list. -/
theorem processLines_color (lines : List String) (cats : List String)
    (hn : cats.Nodup) :
    (∀ l ∈ lines.map lineLabel, isProtoKey l = false) →
    ∀ p ∈ processLines lines (mkColors cats) cats.length,
      p.label ∈ (lines.map lineLabel).foldl addDistinct cats ∧
      p.color = JsColorValue.str
        (paletteColor (posOf ((lines.map lineLabel).foldl addDistinct cats) p.label)) := by
  induction lines generalizing cats with
  | nil => intro _ p hp; cases hp
  | cons line rest ih =>
    intro hproto p hp
    have hprohead : isProtoKey (strOr (((line.splitOn ",").map String.trim).get? 3)
        "Unlabeled") = false := hproto (lineLabel line) (by simp)
    have hprotail : ∀ l ∈ rest.map lineLabel, isProtoKey l = false :=
      fun l hl => hproto l (by simp [hl])
    have hfold : (List.map lineLabel (line :: rest)).foldl addDistinct cats =
        (rest.map lineLabel).foldl addDistinct (addDistinct cats (lineLabel line)) := by
      simp [List.foldl_cons]
    by_cases hmem : lineLabel line ∈ cats
    · have hlk : lookupStr (mkColors cats)
          (strOr (((line.splitOn ",").map String.trim).get? 3) "Unlabeled") =
            some (paletteColor (posOf cats (lineLabel line))) := by
        have := lookup_enumAssign paletteColor cats 0 (lineLabel line) hn hmem
        simpa [mkColors, lineLabel] using this
      have hstep : processLines (line :: rest) (mkColors cats) cats.length =
          (⟨numAt ((line.splitOn ",").map String.trim) 0,
            numAt ((line.splitOn ",").map String.trim) 1,
            numAt ((line.splitOn ",").map String.trim) 2,
            strOr (((line.splitOn ",").map String.trim).get? 3) "Unlabeled",
            (((line.splitOn ",").map String.trim).get? 4).getD "",
            JsColorValue.str (paletteColor (posOf cats (lineLabel line)))⟩ : RawPoint) ::
            processLines rest (mkColors cats) cats.length := by
        rw [processLines_cons]
        simp only [hlk]
        rw [if_neg (paletteColor_ne_empty (posOf cats (lineLabel line)))]
      rw [hstep] at hp
      have hsame : addDistinct cats (lineLabel line) = cats := if_pos hmem
      rcases List.mem_cons.mp hp with hhead | htail
      · subst hhead
        constructor
        · rw [hfold, hsame, mem_foldl_addDistinct]
          exact Or.inl hmem
        · rcases foldl_addDistinct_extends (rest.map lineLabel) cats with ⟨t, ht⟩
          rw [hfold, hsame, ht]
          simp only [lineLabel]
          rw [posOf_append_of_mem cats t _ (by simpa [lineLabel] using hmem)]
      · have := ih cats hn hprotail p htail
        rw [hfold, hsame]
        exact this
    · have hlk : lookupStr (mkColors cats)
          (strOr (((line.splitOn ",").map String.trim).get? 3) "Unlabeled") = none := by
        have := lookup_enumAssign_not_mem paletteColor cats 0 (lineLabel line) hmem
        simpa [mkColors, lineLabel] using this
      have hstep : processLines (line :: rest) (mkColors cats) cats.length =
          (⟨numAt ((line.splitOn ",").map String.trim) 0,
            numAt ((line.splitOn ",").map String.trim) 1,
            numAt ((line.splitOn ",").map String.trim) 2,
            strOr (((line.splitOn ",").map String.trim).get? 3) "Unlabeled",
            (((line.splitOn ",").map String.trim).get? 4).getD "",
            JsColorValue.str (paletteColor cats.length)⟩ : RawPoint) ::
            processLines rest (mkColors cats ++
              [(strOr (((line.splitOn ",").map String.trim).get? 3) "Unlabeled",
                paletteColor cats.length)]) (cats.length + 1) := by
        rw [processLines_cons]
        simp only [hlk]
        rw [if_neg (show ¬ (isProtoKey (strOr (((line.splitOn ",").map String.trim).get? 3)
          "Unlabeled") = true) from by rw [hprohead]; exact Bool.false_ne_true)]
      rw [hstep] at hp
      have hnew : addDistinct cats (lineLabel line) = cats ++ [lineLabel line] :=
        if_neg hmem
      have hcolors : mkColors cats ++
          [(strOr (((line.splitOn ",").map String.trim).get? 3) "Unlabeled",
            paletteColor cats.length)] = mkColors (cats ++ [lineLabel line]) := by
        simp only [mkColors]
        rw [enumAssign_append]
        simp [lineLabel]
      have hlen : cats.length + 1 = (cats ++ [lineLabel line]).length := by simp
      have hnodup : (cats ++ [lineLabel line]).Nodup := by
        simp [List.nodup_append, hn, hmem]
      rcases List.mem_cons.mp hp with hhead | htail
      · subst hhead
        constructor
        · rw [hfold, hnew, mem_foldl_addDistinct]
          exact Or.inl (by simp [lineLabel])
        · rcases foldl_addDistinct_extends (rest.map lineLabel) (cats ++ [lineLabel line])
            with ⟨t, ht⟩
          rw [hfold, hnew, ht]
          simp only [lineLabel]
          rw [posOf_append_of_mem _ t _ (by simp [lineLabel]),
            posOf_append_self cats _ (by simpa [lineLabel] using hmem)]
      · have htail' := htail
        rw [hcolors, show cats.length + 1 = (cats ++ [lineLabel line]).length from hlen]
          at htail'
        have := ih (cats ++ [lineLabel line]) hnodup hprotail p htail'
        rw [hfold, hnew]
        exact this

/-- Empty traces have no transitions. -/
theorem nullTransitions_nil : nullTransitions [] = 0 := rfl

/-- One-state traces have no transitions. -/
theorem nullTransitions_single (a : HoverState) : nullTransitions [a] = 0 := rfl

/-- The transition count of a trace decomposes along its first step. -/
theorem nullTransitions_cons2 (a b : HoverState) (rest : List HoverState) :
    nullTransitions (a :: b :: rest) =
      (if a.hovered ≠ none ∧ b.hovered = none then 1 else 0) +
        nullTransitions (b :: rest) := rfl

/-- A run of misses started with hover already cleared never transitions to
null again. -/
theorem hover_clear_run_null (ms : List (Nat × Option DataPoint)) (s : HoverState)
    (hms : ∀ e ∈ ms, e.2 = none) (hs : s.hovered = none) :
    nullTransitions (s :: runHover s ms) = 0 := by
  induction ms generalizing s with
  | nil =>
    rw [runHover]
    cases ht : s.timer with
    | none => simp [fireFinal, ht, nullTransitions_cons2, nullTransitions_single, hs]
    | some d => simp [fireFinal, ht, nullTransitions_cons2, nullTransitions_single, hs]
  | cons e ms' ih =>
    rcases e with ⟨tm, pm⟩
    have hpm : pm = none := (hms (tm, pm) (List.mem_cons_self _ _)).symm ▸ rfl
    have hpm' : pm = none := hms (tm, pm) (List.mem_cons_self _ _)
    subst hpm'
    rw [runHover]
    have h1 : (fireIfDue tm s).hovered = none := by
      unfold fireIfDue
      cases ht : s.timer with
      | none => exact hs
      | some d =>
        by_cases hd : d ≤ tm
        · simp [hd]
        · simp [hd, hs]
    have h2 : (handleHover tm (fireIfDue tm s) none).hovered = none := by
      simp [handleHover, h1]
    rw [nullTransitions_cons2, nullTransitions_cons2]
    have htail := ih (handleHover tm (fireIfDue tm s) none)
      (fun e he => hms e (List.mem_cons_of_mem _ he)) h2
    simp [hs, h1, htail]

/-- A run of misses started with hover set and a clear timer pending
transitions to null exactly once. -/
theorem hover_clear_run_pending (ms : List (Nat × Option DataPoint))
    (s : HoverState) (d : Nat) (hms : ∀ e ∈ ms, e.2 = none)
    (hs : s.hovered ≠ none) (ht : s.timer = some d) :
    nullTransitions (s :: runHover s ms) = 1 := by
  induction ms generalizing s d with
  | nil =>
    rw [runHover]
    simp [fireFinal, ht, nullTransitions_cons2, nullTransitions_single, hs]
  | cons e ms' ih =>
    rcases e with ⟨tm, pm⟩
    have hpm' : pm = none := hms (tm, pm) (List.mem_cons_self _ _)
    subst hpm'
    rw [runHover]
    have hmtail : ∀ e ∈ ms', e.2 = none := fun e he => hms e (List.mem_cons_of_mem _ he)
    by_cases hd : d ≤ tm
    · have h1 : fireIfDue tm s = ⟨none, none⟩ := by simp [fireIfDue, ht, hd]
      have htail := hover_clear_run_null ms' ⟨none, some (tm + 50)⟩ hmtail rfl
      rw [nullTransitions_cons2, nullTransitions_cons2, h1]
      simp only [handleHover]
      simp [hs, htail]
    · have h1 : fireIfDue tm s = s := by simp [fireIfDue, ht, hd]
      have htail := ih ⟨s.hovered, some (tm + 50)⟩ (tm + 50) hmtail hs rfl
      rw [nullTransitions_cons2, nullTransitions_cons2, h1]
      simp only [handleHover]
      simp [hs, htail]

/-- After a hit (hover set, no timer pending), a nonempty run of misses
transitions to null exactly once. -/
theorem hover_clear_run_start (ms : List (Nat × Option DataPoint)) (s : HoverState)
    (hms : ∀ e ∈ ms, e.2 = none) (hne : ms ≠ []) (hs : s.hovered ≠ none)
    (ht : s.timer = none) :
    nullTransitions (s :: runHover s ms) = 1 := by
  cases ms with
  | nil => exact absurd rfl hne
  | cons e ms' =>
    rcases e with ⟨tm, pm⟩
    have hpm' : pm = none := hms (tm, pm) (List.mem_cons_self _ _)
    subst hpm'
    rw [runHover]
    have h1 : fireIfDue tm s = s := by simp [fireIfDue, ht]
    have htail := hover_clear_run_pending ms' ⟨s.hovered, some (tm + 50)⟩ (tm + 50)
      (fun e he => hms e (List.mem_cons_of_mem _ he)) hs rfl
    rw [nullTransitions_cons2, nullTransitions_cons2, h1]
    simp only [handleHover]
    simp [hs, htail]

/-- Between a hit and a later hit within the debounce window, every state of
the run keeps a non-null hover: pending deadlines always lie beyond the
second hit. -/
theorem hover_no_flicker_run (ms : List (Nat × Option DataPoint)) (s : HoverState)
    (t1 t2 : Nat) (p2 : DataPoint) (hwin : t2 < t1 + 50)
    (hms : ∀ e ∈ ms, e.2 = none ∧ t1 ≤ e.1 ∧ e.1 ≤ t2)
    (hs : s.hovered ≠ none) (htmr : ∀ d, s.timer = some d → t1 + 50 ≤ d) :
    ∀ st ∈ runHover s (ms ++ [(t2, some p2)]), st.hovered ≠ none := by
  induction ms generalizing s with
  | nil =>
    intro st hst
    rw [List.nil_append, runHover] at hst
    have h1 : fireIfDue t2 s = s := by
      unfold fireIfDue
      cases htm : s.timer with
      | none => rfl
      | some d =>
        have := htmr d htm
        have hnd : ¬ d ≤ t2 := by omega
        simp [hnd]
    rw [h1] at hst
    simp only [handleHover, runHover, fireFinal] at hst
    rcases List.mem_cons.mp hst with h | h
    · exact h ▸ hs
    · rcases List.mem_cons.mp h with h' | h'
      · simp [h']
      · rcases List.mem_singleton.mp h' with rfl
        simp
  | cons e ms' ih =>
    rcases e with ⟨tm, pm⟩
    have he := hms (tm, pm) (List.mem_cons_self _ _)
    have hpm : pm = none := he.1
    subst hpm
    intro st hst
    rw [List.cons_append, runHover] at hst
    have h1 : fireIfDue tm s = s := by
      unfold fireIfDue
      cases htm : s.timer with
      | none => rfl
      | some d =>
        have := htmr d htm
        have hnd : ¬ d ≤ tm := by omega
        simp [hnd]
    rw [h1] at hst
    simp only [handleHover] at hst
    rcases List.mem_cons.mp hst with h | h
    · exact h ▸ hs
    · rcases List.mem_cons.mp h with h' | h'
      · rw [h']; exact hs
      · refine ih ⟨s.hovered, some (tm + 50)⟩
          (fun e he' => hms e (List.mem_cons_of_mem _ he')) hs ?_ st h'
        intro d hd
        injection hd with hd
        omega

/-- The calls of a frame, split at the first batch. -/
theorem frameCalls_cons (b : Batch) (bs : List Batch) (ray : Ray) :
    frameCalls (b :: bs) ray =
      match categoryFrameCall b.1 b.2 ray with
      | some c => c :: frameCalls bs ray
      | none => frameCalls bs ray := by
  simp only [frameCalls, List.filterMap_cons]
  cases categoryFrameCall b.1 b.2 ray <;> rfl

/-- The hover value after one frame is the batch-closest point of the last
visible batch that hit, and is left unchanged when no visible batch hits. -/
theorem frameHover_hovered (bs : List Batch) (s : HoverState) (t : Nat) (ray : Ray) :
    (frameHover s t bs ray).hovered =
      match lastHitBatch bs ray with
      | some p => some p
      | none => s.hovered := by
  induction bs generalizing s with
  | nil => rfl
  | cons b bs ih =>
    by_cases hv : b.2.visible
    · have hcall : categoryFrameCall b.1 b.2 ray =
          some (match batchPick ray b.1 with
                | some i => b.1.get? i
                | none => none) := by
        simp [categoryFrameCall, hv]
      have hstep : frameHover s t (b :: bs) ray =
          frameHover (handleHover t s (match batchPick ray b.1 with
            | some i => b.1.get? i
            | none => none)) t bs ray := by
        simp only [frameHover, frameCalls_cons, hcall, List.foldl_cons]
      rw [hstep, ih]
      cases hlast : lastHitBatch bs ray with
      | some p => simp [lastHitBatch, hlast]
      | none =>
        cases hbp : batchPick ray b.1 with
        | none => simp [lastHitBatch, hlast, hv, hbp, handleHover]
        | some i =>
          cases hg : b.1.get? i with
          | none =>
            rw [List.get?_eq_getElem?] at hg
            simp [lastHitBatch, hlast, hv, hbp, hg, handleHover]
          | some q =>
            rw [List.get?_eq_getElem?] at hg
            simp [lastHitBatch, hlast, hv, hbp, hg, handleHover]
    · have hcall : categoryFrameCall b.1 b.2 ray = none := by
        simp [categoryFrameCall, hv]
      have hstep : frameHover s t (b :: bs) ray = frameHover s t bs ray := by
        simp only [frameHover, frameCalls_cons, hcall]
      rw [hstep, ih]
      cases hlast : lastHitBatch bs ray with
      | some p => simp [lastHitBatch, hlast]
      | none => simp [lastHitBatch, hlast, hv]

/-- Only visible batches are rendered. -/
theorem renderBatches_visible (bs : List Batch) :
    ∀ b ∈ renderBatches bs, b.2.visible = true := by
  intro b hb
  have := List.mem_filter.mp hb
  exact this.2

/-- Invisible batches contribute nothing to a frame's pick calls: the calls
of a frame equal the calls over the rendered batches alone. -/
theorem frameCalls_eq_renderBatches (bs : List Batch) (ray : Ray) :
    frameCalls bs ray = frameCalls (renderBatches bs) ray := by
  induction bs with
  | nil => rfl
  | cons b bs ih =>
    by_cases hv : b.2.visible
    · have : renderBatches (b :: bs) = b :: renderBatches bs := by
        simp [renderBatches, List.filter_cons, hv]
      rw [this, frameCalls_cons, frameCalls_cons, ih]
    · have : renderBatches (b :: bs) = renderBatches bs := by
        simp [renderBatches, List.filter_cons, hv]
      have hcall : categoryFrameCall b.1 b.2 ray = none := by
        simp [categoryFrameCall, hv]
      rw [this, frameCalls_cons, hcall, ih]

/-- If no visible batch picks a point under the ray, every call of the frame
is a miss. -/
theorem frameCalls_all_miss (bs : List Batch) (ray : Ray)
    (h : ∀ b ∈ bs, b.2.visible = true → batchPick ray b.1 = none) :
    ∀ c ∈ frameCalls bs ray, c = none := by
  induction bs with
  | nil => intro c hc; cases hc
  | cons b bs ih =>
    intro c hc
    rw [frameCalls_cons] at hc
    by_cases hv : b.2.visible
    · have hbp : batchPick ray b.1 = none := h b (List.mem_cons_self _ _) hv
      have hcall : categoryFrameCall b.1 b.2 ray = some none := by
        simp [categoryFrameCall, hv, hbp]
      rw [hcall] at hc
      rcases List.mem_cons.mp hc with h' | h'
      · exact h'
      · exact ih (fun b' hb' => h b' (List.mem_cons_of_mem _ hb')) c h'
    · have hcall : categoryFrameCall b.1 b.2 ray = none := by
        simp [categoryFrameCall, hv]
      rw [hcall] at hc
      exact ih (fun b' hb' => h b' (List.mem_cons_of_mem _ hb')) c hc

/-- When no key of the record is array-index-like, ECMAScript enumeration is
plain insertion order. -/
theorem jsEntries_no_index {β : Type} (r : List (String × β))
    (h : ∀ e ∈ r, isArrayIndexKey e.1 = none) : jsEntries r = r := by
  unfold jsEntries
  have h1 : r.filterMap (fun e =>
      match isArrayIndexKey e.1 with
      | some n => some (n, e.1, e.2)
      | none => none) = [] := by
    rw [List.filterMap_eq_nil_iff]
    intro e he
    simp [h e he]
  have h2 : r.filter (fun e => (isArrayIndexKey e.1).isNone) = r := by
    rw [List.filter_eq_self]
    intro e he
    simp [h e he]
  rw [h1, h2]
  simp [sortByNat]

/-- C5: for every raw input text, ingestion produces exactly one point per
non-blank line, in line order; per line, columns 1-3 are parsed as numbers
with parse failure coerced to 0, column 4 defaults to "Unlabeled" when
absent or empty, column 5 defaults to the empty string when absent; the
parser is a total function, so no input raises an error. -/
theorem c5_processCSV_per_line (text : String) :
    (processCSV text).map stripColor = (nonBlankLines text).map specLineFields :=
  processLines_map_stripColor (nonBlankLines text) [] 0

/-- C8: the k-th distinct label in first-seen order is styled with the
default color `palette[k mod 10]`; the first ten distinct labels all get
different default colors, and the eleventh and later labels reuse earlier
palette colors. -/
theorem c8_palette_assignment (points : List DataPoint) :
    (∀ k cat, (dedupFirstSeen (points.map DataPoint.label)).get? k = some cat →
      lookupStr (defaultStyles (dedupFirstSeen (points.map DataPoint.label))) cat =
        some ⟨paletteColor k, PointShape.circle, true⟩) ∧
    (∀ j, j < 10 → ∀ k, k < 10 → j ≠ k → paletteColor j ≠ paletteColor k) ∧
    (∀ k, 10 ≤ k → paletteColor k = paletteColor (k - 10)) := by
  refine ⟨?_, ?_, ?_⟩
  · intro k cat hget
    have hn : (dedupFirstSeen (points.map DataPoint.label)).Nodup :=
      nodup_foldl_addDistinct _ [] List.nodup_nil
    have hmem : cat ∈ dedupFirstSeen (points.map DataPoint.label) := List.get?_mem hget
    have hpos := posOf_get? _ k cat hn hget
    have hlook := lookup_enumAssign
      (fun i => (⟨paletteColor i, PointShape.circle, true⟩ : CategoryStyle))
      (dedupFirstSeen (points.map DataPoint.label)) 0 cat hn hmem
    show lookupStr (enumAssign
      (fun i => (⟨paletteColor i, PointShape.circle, true⟩ : CategoryStyle)) 0
      (dedupFirstSeen (points.map DataPoint.label))) cat = _
    rw [hlook, hpos]
    simp
  · decide
  · intro k hk
    have h10 : k % 10 = (k - 10) % 10 := by omega
    show (colorPalette.get? (k % colorPalette.length)).getD "" =
      (colorPalette.get? ((k - 10) % colorPalette.length)).getD ""
    rw [show colorPalette.length = 10 from rfl, h10]

/-- Witness for C8 on a concrete two-category dataset. -/
theorem c8_palette_assignment_witness :
    lookupStr (defaultStyles (dedupFirstSeen
        (([⟨1, 2, 3, "A", "", "#60a5fa"⟩, ⟨4, 5, 6, "B", "", "#f87171"⟩] :
          List DataPoint).map DataPoint.label))) "B" =
      some ⟨paletteColor 1, PointShape.circle, true⟩ ∧
    paletteColor 0 ≠ paletteColor 1 ∧ paletteColor 10 = paletteColor 0 :=
  ⟨(c8_palette_assignment
      [⟨1, 2, 3, "A", "", "#60a5fa"⟩, ⟨4, 5, 6, "B", "", "#f87171"⟩]).1 1 "B"
      (by with_unfolding_all decide),
   (c8_palette_assignment
      [⟨1, 2, 3, "A", "", "#60a5fa"⟩, ⟨4, 5, 6, "B", "", "#f87171"⟩]).2.1 0
      (by decide) 1 (by decide) (by decide),
   (c8_palette_assignment
      [⟨1, 2, 3, "A", "", "#60a5fa"⟩, ⟨4, 5, 6, "B", "", "#f87171"⟩]).2.2 10
      (by decide)⟩

/-- C10 counterexample: for CSV "1,2,3,toString\n4,5,6,A" the parser's
guard sees the inherited `Object.prototype.toString`, skips the palette
assignment (the first point's color is that inherited member, not a string)
and leaves the color cursor behind, so the second point gets palette color
0 while the loader styles its category "A" with palette color 1 — the
claimed invariant fails at both points. -/
theorem c10_proto_label_color_mismatch :
    (processCSV "1,2,3,toString\n4,5,6,A").map RawPoint.color =
      [JsColorValue.protoMember "toString", JsColorValue.str "#60a5fa"] ∧
    lookupStr (defaultStyles (dedupFirstSeen
        ((processCSV "1,2,3,toString\n4,5,6,A").map RawPoint.label))) "toString" =
      some ⟨"#60a5fa", PointShape.circle, true⟩ ∧
    lookupStr (defaultStyles (dedupFirstSeen
        ((processCSV "1,2,3,toString\n4,5,6,A").map RawPoint.label))) "A" =
      some ⟨"#f87171", PointShape.circle, true⟩ ∧
    JsColorValue.protoMember "toString" ≠ JsColorValue.str "#60a5fa" ∧
    JsColorValue.str "#60a5fa" ≠ JsColorValue.str "#f87171" := by
  with_unfolding_all decide

/-- C10 amended: provided no label of the ingested text collides with an
inherited `Object.prototype` property name, every produced point's color and
its category's default style color are the same palette entry at the same
first-seen index — the two independently computed colorings agree; a
colliding label makes the parser skip its palette assignment (storing the
inherited member) and desynchronizes the cursor for later labels. -/
theorem c10_point_color_matches_style (text : String) (p : RawPoint)
    (hproto : ∀ l ∈ (processCSV text).map RawPoint.label, isProtoKey l = false)
    (hp : p ∈ processCSV text) :
    p.color = JsColorValue.str (paletteColor
      (posOf (dedupFirstSeen ((processCSV text).map RawPoint.label)) p.label)) ∧
    lookupStr (defaultStyles (dedupFirstSeen ((processCSV text).map RawPoint.label)))
        p.label = some ⟨paletteColor
          (posOf (dedupFirstSeen ((processCSV text).map RawPoint.label)) p.label),
          PointShape.circle, true⟩ := by
  have hlabels : (processCSV text).map RawPoint.label =
      (nonBlankLines text).map lineLabel := processLines_map_label _ [] 0
  have hproto' : ∀ l ∈ (nonBlankLines text).map lineLabel, isProtoKey l = false := by
    rw [← hlabels]
    exact hproto
  have hp' : p ∈ processLines (nonBlankLines text) (mkColors [])
      ([] : List String).length := hp
  have hcolor := processLines_color (nonBlankLines text) [] List.nodup_nil hproto' p hp'
  have hFeq : dedupFirstSeen ((processCSV text).map RawPoint.label) =
      ((nonBlankLines text).map lineLabel).foldl addDistinct [] := by
    rw [hlabels]; rfl
  have hnodup : (((nonBlankLines text).map lineLabel).foldl addDistinct []).Nodup :=
    nodup_foldl_addDistinct _ [] List.nodup_nil
  have hlook := lookup_enumAssign
    (fun i => (⟨paletteColor i, PointShape.circle, true⟩ : CategoryStyle))
    (((nonBlankLines text).map lineLabel).foldl addDistinct []) 0
    p.label hnodup hcolor.1
  rw [hFeq]
  constructor
  · exact hcolor.2
  · show lookupStr (enumAssign
      (fun i => (⟨paletteColor i, PointShape.circle, true⟩ : CategoryStyle)) 0
      (((nonBlankLines text).map lineLabel).foldl addDistinct [])) p.label = _
    rw [hlook]
    simp

/-- Witness for C10 on a concrete two-category CSV with ordinary labels. -/
theorem c10_point_color_matches_style_witness :
    RawPoint.color ⟨4, 5, 6, "B", "", JsColorValue.str "#f87171"⟩ =
      JsColorValue.str (paletteColor (posOf (dedupFirstSeen
        ((processCSV "1,2,3,A\n4,5,6,B").map RawPoint.label))
        (RawPoint.label ⟨4, 5, 6, "B", "", JsColorValue.str "#f87171"⟩))) ∧
    lookupStr (defaultStyles (dedupFirstSeen
        ((processCSV "1,2,3,A\n4,5,6,B").map RawPoint.label)))
      (RawPoint.label ⟨4, 5, 6, "B", "", JsColorValue.str "#f87171"⟩) =
      some ⟨paletteColor (posOf (dedupFirstSeen
        ((processCSV "1,2,3,A\n4,5,6,B").map RawPoint.label))
        (RawPoint.label ⟨4, 5, 6, "B", "", JsColorValue.str "#f87171"⟩)),
        PointShape.circle, true⟩ :=
  c10_point_color_matches_style "1,2,3,A\n4,5,6,B"
    ⟨4, 5, 6, "B", "", JsColorValue.str "#f87171"⟩
    (by with_unfolding_all decide) (by with_unfolding_all decide)

/-- C4: a ray hit sets the hover point immediately and cancels any pending
clear timer, so between two hits separated by misses within the 50 ms
debounce window the hover value is never null; and a hit followed by misses
with no further hit yields exactly one transition of hover to null. -/
theorem c4_hover_debounce :
    (∀ (s0 : HoverState) (t1 t2 : Nat) (p1 p2 : DataPoint)
        (ms : List (Nat × Option DataPoint)),
      t2 < t1 + 50 →
      (∀ e ∈ ms, e.2 = none ∧ t1 ≤ e.1 ∧ e.1 ≤ t2) →
      ((hoverTrace s0 ((t1, some p1) :: (ms ++ [(t2, some p2)]))).drop 2).all
        (fun st => st.hovered.isSome) = true) ∧
    (∀ (s0 : HoverState) (t0 : Nat) (p0 : DataPoint)
        (ms : List (Nat × Option DataPoint)),
      s0.timer = none → ms ≠ [] → (∀ e ∈ ms, e.2 = none) →
      nullTransitions (hoverTrace s0 ((t0, some p0) :: ms)) = 1) := by
  constructor
  · intro s0 t1 t2 p1 p2 ms hwin hms
    rw [List.all_eq_true]
    intro st hst
    have hst' : st ∈ (⟨some p1, none⟩ : HoverState) ::
        runHover ⟨some p1, none⟩ (ms ++ [(t2, some p2)]) := hst
    rcases List.mem_cons.mp hst' with h | h
    · rw [h]
      rfl
    · have hout := hover_no_flicker_run ms ⟨some p1, none⟩ t1 t2 p2 hwin hms
        (by simp) (fun d hd => Option.noConfusion hd) st h
      simpa [Option.isSome_iff_ne_none] using hout
  · intro s0 t0 p0 ms ht hne hms
    have h1 : fireIfDue t0 s0 = s0 := by simp [fireIfDue, ht]
    have hsplit : hoverTrace s0 ((t0, some p0) :: ms) =
        s0 :: fireIfDue t0 s0 :: (⟨some p0, none⟩ : HoverState) ::
          runHover ⟨some p0, none⟩ ms := rfl
    rw [hsplit, h1, nullTransitions_cons2, nullTransitions_cons2]
    have htail := hover_clear_run_start ms ⟨some p0, none⟩ hms hne (by simp) rfl
    have hcontr : ¬ (s0.hovered ≠ none ∧ s0.hovered = none) := fun h => h.1 h.2
    simp [hcontr, htail]

/-- Witness for C4: a hit at 0 ms, a miss at 10 ms and a second hit at
20 ms keep hover non-null throughout; a hit at 0 ms followed only by a miss
at 10 ms clears hover exactly once. -/
theorem c4_hover_debounce_witness :
    ((hoverTrace ⟨none, none⟩ ((0, some ⟨0, 0, 0, "A", "", "#60a5fa"⟩) ::
        ([(10, none)] ++ [(20, some ⟨0, 0, 1, "B", "", "#f87171"⟩)]))).drop 2).all
      (fun st => st.hovered.isSome) = true ∧
    nullTransitions (hoverTrace ⟨none, none⟩
      ((0, some ⟨0, 0, 0, "A", "", "#60a5fa"⟩) :: [(10, none)])) = 1 :=
  ⟨c4_hover_debounce.1 ⟨none, none⟩ 0 20 ⟨0, 0, 0, "A", "", "#60a5fa"⟩
      ⟨0, 0, 1, "B", "", "#f87171"⟩ [(10, none)] (by decide)
      (by with_unfolding_all decide),
   c4_hover_debounce.2 ⟨none, none⟩ 0 ⟨0, 0, 0, "A", "", "#60a5fa"⟩ [(10, none)] rfl
      (by with_unfolding_all decide) (by with_unfolding_all decide)⟩

/-- C1 counterexample: with two visible batches both under the ray, the
frame reports the batch-closest point of the batch tested last ("B" at
distance 2), not the globally closest intersected point ("A" at
distance 1). -/
theorem c1_not_global_closest :
    (frameHover ⟨none, none⟩ 0
        [([⟨0, 0, 1, "A", "", "#60a5fa"⟩], ⟨"#60a5fa", PointShape.circle, true⟩),
         ([⟨0, 0, 2, "B", "", "#f87171"⟩], ⟨"#f87171", PointShape.circle, true⟩)]
        ⟨0, 0, 0, 0, 0, 1⟩).hovered = some ⟨0, 0, 2, "B", "", "#f87171"⟩ ∧
    globalClosestHit
        [([⟨0, 0, 1, "A", "", "#60a5fa"⟩], ⟨"#60a5fa", PointShape.circle, true⟩),
         ([⟨0, 0, 2, "B", "", "#f87171"⟩], ⟨"#f87171", PointShape.circle, true⟩)]
        ⟨0, 0, 0, 0, 0, 1⟩ = some ⟨0, 0, 1, "A", "", "#60a5fa"⟩ ∧
    (⟨0, 0, 2, "B", "", "#f87171"⟩ : DataPoint) ≠ ⟨0, 0, 1, "A", "", "#60a5fa"⟩ := by
  with_unfolding_all decide

/-- C1 amended: each visible batch is tested independently once per frame,
each hit reporting the closest point within that batch only; the frame's
reported hover is the within-batch-closest point of the last visible batch
that hit (unchanged when no visible batch hits), not the globally closest
point across batches. -/
theorem c1_last_hit_batch_wins (bs : List Batch) (s : HoverState) (t : Nat)
    (ray : Ray) :
    (frameHover s t bs ray).hovered =
      match lastHitBatch bs ray with
      | some p => some p
      | none => s.hovered :=
  frameHover_hovered bs s t ray

/-- C2 counterexample: the request sequence circle, square, circle through a
category's memo cell rasterizes three bitmaps for two distinct shapes, and
the third request returns a fresh bitmap, not the cached bitmap of the
first. -/
theorem c2_reraster_on_alternation :
    (runRequests [PointShape.circle, PointShape.square, PointShape.circle]).2.rasterCount
        = 3 ∧
    distinctShapeCount [PointShape.circle, PointShape.square, PointShape.circle] = 2 ∧
    (runRequests [PointShape.circle, PointShape.square, PointShape.circle]).1.get? 2 ≠
      (runRequests [PointShape.circle, PointShape.square, PointShape.circle]).1.get? 0 := by
  with_unfolding_all decide

/-- C2 amended: createShapeTexture rasterizes a fresh bitmap on every call;
the per-component memo only caches the most recent shape, so an immediately
repeated request for the same shape returns the cached bitmap without
re-rasterizing, and the rasterized pixel content is deterministic per
shape. -/
theorem c2_memo_and_determinism :
    (∀ (st : RasterState) (cell : MemoCell) (shape : PointShape),
      requestTexture (requestTexture st cell shape).2.1
          (requestTexture st cell shape).2.2 shape =
        ((requestTexture st cell shape).1, (requestTexture st cell shape).2.1,
          (requestTexture st cell shape).2.2)) ∧
    (∀ t1 t2 : Texture, t1.shape = t2.shape → texPixels t1 = texPixels t2) := by
  constructor
  · intro st cell shape
    cases hc : cell.cache with
    | none => simp [requestTexture, hc]
    | some e =>
      rcases e with ⟨s, t⟩
      by_cases hs : s = shape
      · simp [requestTexture, hc, hs]
      · simp [requestTexture, hc, hs]
  · intro t1 t2 h
    unfold texPixels
    rw [h]

/-- Witness for C2: a repeated circle request reuses the cache, and two
cross textures rasterized at different times have identical pixel
content. -/
theorem c2_memo_and_determinism_witness :
    requestTexture (requestTexture ⟨0, 0⟩ ⟨none⟩ PointShape.circle).2.1
        (requestTexture ⟨0, 0⟩ ⟨none⟩ PointShape.circle).2.2 PointShape.circle =
      ((requestTexture ⟨0, 0⟩ ⟨none⟩ PointShape.circle).1,
        (requestTexture ⟨0, 0⟩ ⟨none⟩ PointShape.circle).2.1,
        (requestTexture ⟨0, 0⟩ ⟨none⟩ PointShape.circle).2.2) ∧
    texPixels ⟨0, PointShape.cross⟩ = texPixels ⟨5, PointShape.cross⟩ :=
  ⟨c2_memo_and_determinism.1 ⟨0, 0⟩ ⟨none⟩ PointShape.circle,
   c2_memo_and_determinism.2 ⟨0, PointShape.cross⟩ ⟨5, PointShape.cross⟩ rfl⟩

/-- C3 counterexample: the value returned to the capture-requesting consumer
is the same unit whether encoding fails or succeeds — no error value or
future distinguishes the failure — and the failure instead escapes the
capture effect as an uncaught exception. -/
theorem c3_failure_not_surfaced :
    (captureFlow none 0).1 = (captureFlow (some "data:image/png;base64,AAAA") 0).1 ∧
    handleCapture none 0 = CaptureOutcome.uncaughtException "toDataURL threw" :=
  ⟨rfl, rfl⟩

/-- C3 amended: takeScreenshot returns no result to its caller (unit either
way); a read-back or encoding failure raises an uncaught exception inside
the capture effect instead of being returned, while a success saves a
timestamp-named PNG via a download link. -/
theorem c3_capture_outcomes (res : Option String) (ts : Nat) :
    (captureFlow res ts).1 = () ∧
    handleCapture none ts = CaptureOutcome.uncaughtException "toDataURL threw" ∧
    (∀ url, handleCapture (some url) ts =
      CaptureOutcome.saved ("VoxNavigator-3D-" ++ toString ts ++ ".png")
        (jsReplaceFirst url "image/png" "image/octet-stream")) :=
  ⟨rfl, rfl, fun _ => rfl⟩

/-- C6: invisible categories are excluded from rendering and never tested by
picking — a frame's pick calls equal the pick calls over the rendered
batches alone — and a ray whose only hits lie in invisible batches yields a
frame in which every call reports no hit. -/
theorem c6_invisible_excluded (bs : List Batch) (ray : Ray) :
    (∀ b ∈ renderBatches bs, b.2.visible = true) ∧
    frameCalls bs ray = frameCalls (renderBatches bs) ray ∧
    ((∀ b ∈ bs, b.2.visible = true → batchPick ray b.1 = none) →
      (frameCalls bs ray).all Option.isNone = true) := by
  refine ⟨renderBatches_visible bs, frameCalls_eq_renderBatches bs ray, ?_⟩
  intro h
  rw [List.all_eq_true]
  intro c hc
  rw [frameCalls_all_miss bs ray h c hc]
  rfl

/-- Witness for C6: a hidden batch whose point lies on the ray together with
a visible batch far from it — the visible batch is rendered, the calls match
the rendered batches, and no call reports a hit. -/
theorem c6_invisible_excluded_witness :
    (([⟨5, 5, 5, "B", "", "#f87171"⟩], (⟨"#f87171", PointShape.circle, true⟩ :
        CategoryStyle)) : Batch).2.visible = true ∧
    frameCalls
        [([⟨0, 0, 1, "A", "", "#60a5fa"⟩], ⟨"#60a5fa", PointShape.circle, false⟩),
         ([⟨5, 5, 5, "B", "", "#f87171"⟩], ⟨"#f87171", PointShape.circle, true⟩)]
        ⟨0, 0, 0, 0, 0, 1⟩ =
      frameCalls (renderBatches
        [([⟨0, 0, 1, "A", "", "#60a5fa"⟩], ⟨"#60a5fa", PointShape.circle, false⟩),
         ([⟨5, 5, 5, "B", "", "#f87171"⟩], ⟨"#f87171", PointShape.circle, true⟩)])
        ⟨0, 0, 0, 0, 0, 1⟩ ∧
    (frameCalls
        [([⟨0, 0, 1, "A", "", "#60a5fa"⟩], ⟨"#60a5fa", PointShape.circle, false⟩),
         ([⟨5, 5, 5, "B", "", "#f87171"⟩], ⟨"#f87171", PointShape.circle, true⟩)]
        ⟨0, 0, 0, 0, 0, 1⟩).all Option.isNone = true :=
  ⟨(c6_invisible_excluded
      [([⟨0, 0, 1, "A", "", "#60a5fa"⟩], ⟨"#60a5fa", PointShape.circle, false⟩),
       ([⟨5, 5, 5, "B", "", "#f87171"⟩], ⟨"#f87171", PointShape.circle, true⟩)]
      ⟨0, 0, 0, 0, 0, 1⟩).1
      ([⟨5, 5, 5, "B", "", "#f87171"⟩], ⟨"#f87171", PointShape.circle, true⟩)
      (by with_unfolding_all decide),
   (c6_invisible_excluded
      [([⟨0, 0, 1, "A", "", "#60a5fa"⟩], ⟨"#60a5fa", PointShape.circle, false⟩),
       ([⟨5, 5, 5, "B", "", "#f87171"⟩], ⟨"#f87171", PointShape.circle, true⟩)]
      ⟨0, 0, 0, 0, 0, 1⟩).2.1,
   (c6_invisible_excluded
      [([⟨0, 0, 1, "A", "", "#60a5fa"⟩], ⟨"#60a5fa", PointShape.circle, false⟩),
       ([⟨5, 5, 5, "B", "", "#f87171"⟩], ⟨"#f87171", PointShape.circle, true⟩)]
      ⟨0, 0, 0, 0, 0, 1⟩).2.2 (by with_unfolding_all decide)⟩

/-- C7: the hover tooltip is in the render output exactly when the hover
point is non-null, the selection is null and no capture is pending; while a
capture is pending both transient overlays are absent. -/
theorem c7_overlay_visibility (h s : Option DataPoint) (trig : Bool) :
    ((overlays h s trig).any isTooltip = true ↔
      (h.isSome = true ∧ s = none ∧ trig = false)) ∧
    (trig = true → overlays h s trig = []) := by
  constructor
  · cases h <;> cases s <;> cases trig <;> simp [overlays, isTooltip]
  · intro htrig
    subst htrig
    cases h <;> cases s <;> simp [overlays]

/-- Witness for C7 at concrete states: the tooltip shows for a plain hover,
and a pending capture empties the overlays. -/
theorem c7_overlay_visibility_witness :
    (overlays (some ⟨0, 0, 0, "A", "", "#60a5fa"⟩) none false).any isTooltip = true ∧
    overlays (some ⟨0, 0, 0, "A", "", "#60a5fa"⟩)
      (some ⟨0, 0, 1, "B", "", "#f87171"⟩) true = [] :=
  ⟨(c7_overlay_visibility (some ⟨0, 0, 0, "A", "", "#60a5fa"⟩) none false).1.mpr
      ⟨rfl, rfl, rfl⟩,
   (c7_overlay_visibility (some ⟨0, 0, 0, "A", "", "#60a5fa"⟩)
      (some ⟨0, 0, 1, "B", "", "#f87171"⟩) true).2 rfl⟩

/-- C9 counterexample: with array-index-like labels "2" then "1" the render
batches are enumerated in ascending numeric key order ["1", "2"], not in the
first-occurrence order ["2", "1"] of the categories list; and a single point
labelled "toString" makes the grouping throw a TypeError (the inherited
`Object.prototype.toString` defeats the initialization guard and `.push` is
called on it), so that point belongs to no group at all. -/
theorem c9_batch_order_counterexample :
    (pointsByCategory
        [⟨0, 0, 0, "2", "", "#60a5fa"⟩, ⟨0, 0, 0, "1", "", "#f87171"⟩]).toOption.map
      (fun g => (jsEntries g).map Prod.fst) = some ["1", "2"] ∧
    dedupFirstSeen (([⟨0, 0, 0, "2", "", "#60a5fa"⟩,
        ⟨0, 0, 0, "1", "", "#f87171"⟩] : List DataPoint).map DataPoint.label) =
      ["2", "1"] ∧
    (["1", "2"] : List String) ≠ ["2", "1"] ∧
    (pointsByCategory [⟨0, 0, 0, "toString", "", "#60a5fa"⟩]).toOption = none := by
  with_unfolding_all decide

/-- C9 amended: the categories list equals first-occurrence order of the
distinct labels; when no label collides with an inherited `Object.prototype`
property name the grouping succeeds, its keys are the categories in
first-seen order, and every point belongs to exactly its label's group (the
ordered subsequence of points carrying that label); the render batches are
then built in ECMAScript enumeration order of the groups record, which
equals first-occurrence order when additionally no label is an
array-index-like integer string (integer-like labels otherwise come first in
ascending numeric order); a label that collides with an `Object.prototype`
property name instead makes the grouping throw before any batch is built. -/
theorem c9_categories_and_groups (points : List DataPoint) :
    dedupFirstSeen (points.map DataPoint.label) =
      firstOccur (points.map DataPoint.label) ∧
    ((∀ l ∈ points.map DataPoint.label, isProtoKey l = false) →
      (pointsByCategory points).map keysOf =
        Except.ok (dedupFirstSeen (points.map DataPoint.label)) ∧
      (∀ l, (pointsByCategory points).map (fun g => lookupStr g l) =
        Except.ok (if l ∈ points.map DataPoint.label then
          some (points.filter (fun p => decide (p.label = l)))
        else none)) ∧
      ((∀ l ∈ points.map DataPoint.label, isArrayIndexKey l = none) →
        (pointsByCategory points).map (fun g => (jsEntries g).map Prod.fst) =
          Except.ok (dedupFirstSeen (points.map DataPoint.label)))) ∧
    ((∃ p ∈ points, isProtoKey p.label = true) →
      (pointsByCategory points).toOption = none) := by
  refine ⟨?_, ?_, ?_⟩
  · have := dedupFirstSeen_eq_firstOccur_aux (points.map DataPoint.label) []
    simpa [dedupFirstSeen] using this
  · intro hproto
    have hproto' : ∀ p ∈ points, isProtoKey p.label = false := fun p hp =>
      hproto p.label (List.mem_map.mpr ⟨p, hp, rfl⟩)
    have hok : pointsByCategory points = Except.ok (points.foldl addPointOwn []) :=
      groupPoints_no_proto points [] hproto'
    have hkeys : keysOf (points.foldl addPointOwn []) =
        dedupFirstSeen (points.map DataPoint.label) := by
      have := foldl_addPointOwn_keys points []
      simpa [dedupFirstSeen, keysOf] using this
    refine ⟨?_, ?_, ?_⟩
    · rw [hok]
      show Except.ok (keysOf (List.foldl addPointOwn [] points)) = _
      rw [hkeys]
    · intro l
      have hl2 : lookupStr (List.foldl addPointOwn [] points) l =
          if l ∈ points.map DataPoint.label then
            some (points.filter (fun p => decide (p.label = l)))
          else none := by
        simpa [lookupStr] using foldl_addPointOwn_lookup points [] l
      rw [hok]
      show Except.ok (lookupStr (List.foldl addPointOwn [] points) l) = _
      rw [hl2]
    · intro hno
      have hmemkeys : ∀ e ∈ points.foldl addPointOwn [], isArrayIndexKey e.1 = none := by
        intro e he
        have h1 : e.1 ∈ keysOf (points.foldl addPointOwn []) :=
          List.mem_map.mpr ⟨e, he, rfl⟩
        rw [hkeys] at h1
        have h2 : e.1 ∈ points.map DataPoint.label :=
          ((mem_foldl_addDistinct _ [] e.1).mp h1).resolve_left (by simp)
        exact hno e.1 h2
      rw [hok]
      show Except.ok ((jsEntries (List.foldl addPointOwn [] points)).map Prod.fst) = _
      rw [jsEntries_no_index _ hmemkeys]
      exact congrArg Except.ok hkeys
  · intro hex
    exact groupPoints_proto_crash points [] (by intro k hk; cases hk) hex

/-- Witness for C9: with ordinary labels "B", "A" the batch enumeration
equals the first-occurrence categories list, and a "toString"-labelled point
makes the grouping throw. -/
theorem c9_categories_and_groups_witness :
    (pointsByCategory
        [⟨0, 0, 0, "B", "", "#60a5fa"⟩, ⟨0, 0, 0, "A", "", "#f87171"⟩]).map
      (fun g => (jsEntries g).map Prod.fst) =
      Except.ok (dedupFirstSeen (([⟨0, 0, 0, "B", "", "#60a5fa"⟩,
        ⟨0, 0, 0, "A", "", "#f87171"⟩] : List DataPoint).map DataPoint.label)) ∧
    (pointsByCategory [⟨0, 0, 0, "toString", "", "#60a5fa"⟩]).toOption = none :=
  ⟨((c9_categories_and_groups
      [⟨0, 0, 0, "B", "", "#60a5fa"⟩, ⟨0, 0, 0, "A", "", "#f87171"⟩]).2.1
      (by with_unfolding_all decide)).2.2 (by with_unfolding_all decide),
   (c9_categories_and_groups [⟨0, 0, 0, "toString", "", "#60a5fa"⟩]).2.2
      ⟨⟨0, 0, 0, "toString", "", "#60a5fa"⟩, by with_unfolding_all decide⟩⟩
